import Mathlib

/-!
Verification of the orbit dynamical-quantity extraction engine (`orbit.py`).

The source operates on numpy arrays of samples; we embed it shallowly over
rational numbers.  An orbit is represented for the extremum estimators by its
time array and the per-body scalar series (radial distance, vertical
coordinate) that the representation layer supplies, and for the
circulation/frame-alignment routines by its Cartesian position and velocity
components.  The scipy spline/minimizer primitives used by the refined
extremum path are external collaborators and are modelled by an abstract
oracle; everything the claims quantify over is computed exactly.
-/

/-- Error taxonomy of the source: the Python exception kinds the methods can
raise (`ValueError`, `NotImplementedError`, `AssertionError` from the
`assert` statements, `TypeError` from operating on `None` or mismatched
shapes, `RuntimeError` from the unreachable branch of the alignment loop). -/
inductive Err where
  | valueError
  | notImplementedError
  | assertionError
  | typeError
  | runtimeError
deriving DecidableEq, Repr

/-- Embedding of `scipy.signal.argrelmax(arr, mode='wrap')`: indices whose
element is strictly greater than both neighbours, the first/last element
being compared with the last/first (wrap-around). -/
def argrelmaxWrap (a : List ℚ) : List ℕ :=
  (List.range a.length).filter (fun i =>
    decide (a.getD ((i + a.length - 1) % a.length) 0 < a.getD i 0) &&
    decide (a.getD ((i + 1) % a.length) 0 < a.getD i 0))

/-- The candidate indices kept by `Orbit._max_helper`: the wrap-around
relative maxima with the edge indices `0` and `len(arr)-1` removed
(`_ix = _ix[(_ix != 0) & (_ix != (len(arr)-1))]`). -/
def interiorMaxIndices (a : List ℚ) : List ℕ :=
  (argrelmaxWrap a).filter (fun i => decide (i ≠ 0) && decide (i ≠ a.length - 1))

/-- Abstract model of the scipy primitives used by the refined (interpolating)
path of `_max_helper`: `splineEval t arr x` stands for
`InterpolatedUnivariateSpline(t, arr, **interp_kwargs)(x)` and
`minimizeFrom f x0` for `scipy.optimize.minimize(f, x0, **minimize_kwargs).x`.
The spec treats both as external primitives used only through their calling
contract, so the embedding is parametric in them. -/
structure SplineMin where
  splineEval : List ℚ → List ℚ → ℚ → ℚ
  minimizeFrom : (ℚ → ℚ) → ℚ → ℚ

/-- A trivial instantiation of the scipy oracle, used to evaluate the
model on concrete inputs along the approximate path (which never consults
the oracle). -/
def trivOracle : SplineMin where
  splineEval := fun _ _ _ => 0
  minimizeFrom := fun _ x0 => x0

/-- Embedding of `Orbit._max_helper` for a single-body orbit.  It asserts
that time increases (`assert self.t[-1] > self.t[0]`), locates the interior
wrap-around relative maxima, and either returns the raw sampled
values/times at those indices (`approximate` mode) or refines each
candidate by minimizing the spline through the negated series seeded at the
candidate sample time, returning `-spline(refined_time)` and the refined
times. -/
def maxHelper (om : SplineMin) (t arr : List ℚ) (approximate : Bool) :
    Except Err (List ℚ × List ℚ) :=
  if t.headD 0 < t.getLastD 0 then
    let ix := interiorMaxIndices arr
    if approximate then
      .ok (ix.map (fun i => arr.getD i 0), ix.map (fun i => t.getD i 0))
    else
      let f : ℚ → ℚ := fun x => om.splineEval t (arr.map (fun v => -v)) x
      let betterTimes := ix.map (fun j => om.minimizeFrom f (t.getD j 0))
      .ok (betterTimes.map (fun x => -(f x)), betterTimes)
  else
    .error .assertionError

/-- The shapes `Orbit._max_return_helper` can produce: a single
(values, times) pair when `return_times` is requested for one body, parallel
per-body lists of pairs for a batch, the reduced per-body array when a
reducer function is in effect, or the unreduced per-body lists. -/
inductive MaxOut where
  | pairSingle (vals times : List ℚ)
  | pairMulti (vals times : List (List ℚ))
  | reduced (vals : List ℚ)
  | unreduced (vals : List (List ℚ))
deriving DecidableEq, Repr

/-- `np.mean` on a list of rationals. -/
def mean (l : List ℚ) : ℚ := l.sum / (l.length : ℚ)

/-- Embedding of `Orbit._max_return_helper`.  The source applies `func` to
each body inside the collection loop; since `reduce` is fixed for the whole
call (`reduce = func is not None`), applying the reducer uniformly here is
equivalent and keeps the collected values homogeneous. -/
def maxReturnHelper (vals times : List (List ℚ)) (rtimes : Bool)
    (func : Option (List ℚ → ℚ)) : MaxOut :=
  if rtimes then
    if vals.length = 1 then .pairSingle (vals.headD []) (times.headD [])
    else .pairMulti vals times
  else
    match func with
    | some f => .reduced (vals.map f)
    | none => .unreduced vals

/-- The keyword options of `pericenter`/`apocenter`/`zmax`:
`return_times`, the reducer `func` (`none` embeds Python `func=None`,
whose default is `np.mean`), `approximate`, and the scipy configuration
(`interp_kwargs`/`minimize_kwargs`) abstracted into the oracle they
parameterize. -/
structure Opts where
  rtimes : Bool
  func : Option (List ℚ → ℚ)
  approximate : Bool
  oracle : SplineMin

/-- The orbit data consumed by the extremum estimators.  `t` is the optional
time array.  Modelled from the spec: the representation/unit layer (outside
this module) derives per-sample spherical radial distance
(`self.physicsspherical.r`) and cylindrical vertical coordinate
(`self.cylindrical.z`) from the stored positions; we carry those derived
per-body series directly, one list per batch member. -/
structure SOrbit where
  t : Option (List ℚ)
  rs : List (List ℚ)
  zs : List (List ℚ)

/-- The time-reversed copy `self[::-1]` of an orbit: the time array and every
per-body sample series are reversed along the time axis. -/
def reverseTime (o : SOrbit) : SOrbit where
  t := o.t.map List.reverse
  rs := o.rs.map List.reverse
  zs := o.zs.map List.reverse

/-- Sequencing of a fallible per-body computation over the bodies of a
batch, mirroring the Python `for orbit in self.orbit_gen():` loop in which
the first raised exception aborts the whole call. -/
def mapExcept (f : α → Except Err β) : List α → Except Err (List β)
  | [] => .ok []
  | x :: xs =>
    match f x with
    | .error e => .error e
    | .ok y =>
      match mapExcept f xs with
      | .error e => .error e
      | .ok ys => .ok (y :: ys)

/-- Embedding of `Orbit.pericenter`: reject `return_times` together with a
non-`None` reducer, flip the orbit if time is reversed, run `_max_helper`
on the negated radial distance of each body and negate the returned values
back, then dispatch through `_max_return_helper`. -/
def pericenter (o : SOrbit) (opts : Opts) : Except Err MaxOut :=
  if opts.rtimes && opts.func.isSome then .error .valueError
  else
    match o.t with
    | none => .error .typeError
    | some t0 =>
      let ob := if t0.getLastD 0 < t0.headD 0 then reverseTime o else o
      let t1 := ob.t.getD []
      match mapExcept (fun r =>
          match maxHelper opts.oracle t1 (r.map (fun x => -x)) opts.approximate with
          | .error e => .error e
          | .ok p => .ok (p.1.map (fun x => -x), p.2)) ob.rs with
      | .error e => .error e
      | .ok pairs =>
        .ok (maxReturnHelper (pairs.map Prod.fst) (pairs.map Prod.snd)
          opts.rtimes opts.func)

/-- Embedding of `Orbit.apocenter`: as `pericenter` but `_max_helper` is run
directly on the radial distance, with no negation. -/
def apocenter (o : SOrbit) (opts : Opts) : Except Err MaxOut :=
  if opts.rtimes && opts.func.isSome then .error .valueError
  else
    match o.t with
    | none => .error .typeError
    | some t0 =>
      let ob := if t0.getLastD 0 < t0.headD 0 then reverseTime o else o
      let t1 := ob.t.getD []
      match mapExcept (fun r => maxHelper opts.oracle t1 r opts.approximate) ob.rs with
      | .error e => .error e
      | .ok pairs =>
        .ok (maxReturnHelper (pairs.map Prod.fst) (pairs.map Prod.snd)
          opts.rtimes opts.func)

/-- Embedding of `Orbit.zmax`: as `apocenter` but on the absolute value of
the vertical coordinate, `np.abs(orbit.cylindrical.z)`. -/
def zmax (o : SOrbit) (opts : Opts) : Except Err MaxOut :=
  if opts.rtimes && opts.func.isSome then .error .valueError
  else
    match o.t with
    | none => .error .typeError
    | some t0 =>
      let ob := if t0.getLastD 0 < t0.headD 0 then reverseTime o else o
      let t1 := ob.t.getD []
      match mapExcept (fun z =>
          maxHelper opts.oracle t1 (z.map (fun x => |x|)) opts.approximate) ob.zs with
      | .error e => .error e
      | .ok pairs =>
        .ok (maxReturnHelper (pairs.map Prod.fst) (pairs.map Prod.snd)
          opts.rtimes opts.func)

/-- The numpy arithmetic `(ra - rp) / (ra + rp)` applied to the outputs of
`apocenter`/`pericenter`: elementwise on matching array shapes; on the tuple
outputs produced by `return_times` the Python arithmetic raises a
`TypeError`. -/
def eccCombine : MaxOut → MaxOut → Except Err MaxOut
  | .reduced a, .reduced p =>
      .ok (.reduced (List.zipWith (fun x y => (x - y) / (x + y)) a p))
  | .unreduced a, .unreduced p =>
      .ok (.unreduced (List.zipWith (List.zipWith (fun x y => (x - y) / (x + y))) a p))
  | _, _ => .error .typeError

/-- Embedding of `Orbit.eccentricity`: compute the apocenter and pericenter
with the same forwarded keyword options and combine them as
`(ra - rp) / (ra + rp)`. -/
def eccentricity (o : SOrbit) (opts : Opts) : Except Err MaxOut :=
  match apocenter o opts with
  | .error e => .error e
  | .ok ra =>
    match pericenter o opts with
    | .error e => .error e
    | .ok rp => eccCombine ra rp

/-- Modelled from the spec: `peak_to_peak_period` (imported from the
`util` module, not part of this source file) estimates the radial period as
the mean spacing between successive same-type extrema of the series against
time; we take the interior local maxima located by the same candidate test. -/
def peakToPeakPeriod (t r : List ℚ) : ℚ :=
  let ts := (interiorMaxIndices r).map (fun i => t.getD i 0)
  mean (List.zipWith (fun a b => b - a) ts (ts.drop 1))

/-- Embedding of `Orbit.estimate_period`: a missing time array is a
`ValueError`; the radial path applies `peak_to_peak_period` to each body
radial series; the non-radial path raises `NotImplementedError`. -/
def estimatePeriod (o : SOrbit) (radial : Bool) : Except Err (List ℚ) :=
  match o.t with
  | none => .error .valueError
  | some t0 =>
    if radial then .ok (o.rs.map (fun r => peakToPeakPeriod t0 r))
    else .error .notImplementedError

/-- The Cartesian orbit data consumed by `circulation` and
`align_circulation_with_z`.  `pos a` and `vel a` are the samples of
Cartesian component `a` indexed first by batch member and then by time (the
transpose of the numpy `(3, ntimes, norbits)` layout, which carries the same
information).  The potential and the reference frame are opaque external
references, modelled as optional tokens. -/
structure COrbit where
  pos : Fin 3 → List (List ℚ)
  vel : Fin 3 → List (List ℚ)
  t : Option (List ℚ)
  potential : Option ℕ
  frame : Option ℕ

/-- The `Orbit.hamiltonian` property: `None` unless both the potential and
the frame are present, in which case it pairs them. -/
def hamiltonianOf (o : COrbit) : Option (ℕ × ℕ) :=
  match o.potential, o.frame with
  | some p, some f => some (p, f)
  | _, _ => none

/-- The `Orbit.__init__` path taken when a `hamiltonian` keyword is passed:
the new orbit takes its potential and frame from the Hamiltonian when one is
given, and has neither otherwise. -/
def mkFromHamiltonian (pos vel : Fin 3 → List (List ℚ)) (t : Option (List ℚ))
    (h : Option (ℕ × ℕ)) : COrbit where
  pos := pos
  vel := vel
  t := t
  potential := h.map Prod.fst
  frame := h.map Prod.snd

/-- The batch-member count `pos.shape[2]` (arrays are rectangular, so the
first component determines it). -/
def norbits (o : COrbit) : ℕ := (o.pos 0).length

/-- Modelled from the spec: `angular_momentum` (defined on the
`PhaseSpacePosition` base class, outside this source file) is the per-sample
angular momentum `L = pos x vel`; component `a` is
`pos[a+1] * vel[a+2] - pos[a+2] * vel[a+1]` with cyclic component indices.
`Lser o a n` is its time series for batch member `n`. -/
def Lser (o : COrbit) (a : Fin 3) (n : ℕ) : List ℚ :=
  List.zipWith (fun p q => p - q)
    (List.zipWith (fun x y => x * y) ((o.pos (a + 1)).getD n []) ((o.vel (a + 2)).getD n []))
    (List.zipWith (fun x y => x * y) ((o.pos (a + 2)).getD n []) ((o.vel (a + 1)).getD n []))

/-- `np.sign` on a rational sample. -/
def sgn (q : ℚ) : ℤ := if 0 < q then 1 else if q < 0 then -1 else 0

/-- The small fixed magnitude threshold `1E-13` of `Orbit.circulation`,
written in normal form (numerator `1`, denominator `10^13`) so concrete
comparisons against it evaluate; `Lthreshold_eq` below identifies it with
`1 / 10 ^ 13`. -/
def Lthreshold : ℚ := ⟨1, 10 ^ 13, by norm_num, Nat.coprime_one_left _⟩

/-- One entry of the `Orbit.circulation` output: starting from `1`, the
entry is zeroed when any sample after the first has a sign differing from
the first sample, or magnitude below the threshold
(`(np.sign(L0[ii]) != np.sign(L[ii, 1:])) | (np.abs(L[ii, 1:]).value < 1E-13)`). -/
def circEntry (ls : List ℚ) : ℤ :=
  if (ls.drop 1).any (fun v =>
      decide (sgn (ls.headD 0) ≠ sgn v) || decide (|v| < Lthreshold)) then 0
  else 1

/-- The `(ndim, norbits)` integer matrix assembled by `Orbit.circulation`,
rows indexed by axis and columns by batch member. -/
def circulationMatrix (o : COrbit) : List (List ℤ) :=
  ([0, 1, 2] : List (Fin 3)).map (fun a =>
    (List.range (norbits o)).map (fun n => circEntry (Lser o a n)))

/-- A circulation classification as an array: `Orbit.circulation` returns a
1-D vector for a single orbit and a `(3, norbits)` matrix for a batch, and a
caller of `align_circulation_with_z` may supply either form. -/
inductive CircInput where
  | oneD (v : List ℤ)
  | twoD (m : List (List ℤ))
deriving DecidableEq, Repr

/-- The array returned by `Orbit.circulation`: the single-orbit case (no
batch axis, modelled as a one-member batch) is reshaped to a 1-D vector. -/
def circulationOut (o : COrbit) : CircInput :=
  if norbits o = 1 then
    .oneD (([0, 1, 2] : List (Fin 3)).map (fun a => circEntry (Lser o a 0)))
  else
    .twoD (circulationMatrix o)

/-- `atleast_2d(circulation, insert_axis=1)` (from the `util` module): a 1-D
vector of length `k` becomes a `(k, 1)` column matrix, a matrix is
unchanged. -/
def atleast2dInsert1 : CircInput → List (List ℤ)
  | .oneD v => v.map (fun x => [x])
  | .twoD m => m

/-- The axis relabelling performed for one batch member of
`align_circulation_with_z` when axis `c` is the circulating axis: component
`c` and component `2` (the z axis) trade places, the remaining component is
untouched.  `swapAx c a` is the source component that the new component `a`
reads from. -/
def swapAx (c a : Fin 3) : Fin 3 :=
  if a = c then 2 else if a = 2 then c else a

/-- The per-member branch of the `align_circulation_with_z` loop: members
already circulating about z, and box members, are skipped; otherwise the
first flagged axis in the fixed priority order x-before-y is selected, and
the unreachable fall-through raises `RuntimeError`. -/
def alignMemberAxis (c0 c1 c2 : ℤ) : Except Err (Option (Fin 3)) :=
  if c2 = 1 ∨ (c0 = 0 ∧ c1 = 0 ∧ c2 = 0) then .ok none
  else if c0 = 1 then .ok (some 0)
  else if c1 = 1 then .ok (some 1)
  else .error .runtimeError

/-- Embedding of `Orbit.align_circulation_with_z`: recompute the circulation
when none is supplied, promote it to a matrix, validate its shape against
`(ndim, norbits)`, decide the axis relabelling of every batch member, and
build a new orbit on copies of the position/velocity components, carrying
the original time array and Hamiltonian. -/
def alignCirculationWithZ (o : COrbit) (circulation : Option CircInput) :
    Except Err COrbit :=
  let ci := match circulation with
    | none => circulationOut o
    | some c => c
  let m := atleast2dInsert1 ci
  if m.length = 3 ∧ (m.headD []).length = norbits o then
    match mapExcept (fun n =>
        alignMemberAxis ((m.getD 0 []).getD n 0) ((m.getD 1 []).getD n 0)
          ((m.getD 2 []).getD n 0)) (List.range (norbits o)) with
    | .error e => .error e
    | .ok swaps =>
      let newPos : Fin 3 → List (List ℚ) := fun a =>
        (List.range (norbits o)).map (fun n =>
          match swaps.getD n none with
          | none => (o.pos a).getD n []
          | some c => (o.pos (swapAx c a)).getD n [])
      let newVel : Fin 3 → List (List ℚ) := fun a =>
        (List.range (norbits o)).map (fun n =>
          match swaps.getD n none with
          | none => (o.vel a).getD n []
          | some c => (o.vel (swapAx c a)).getD n [])
      .ok (mkFromHamiltonian newPos newVel o.t (hamiltonianOf o))
  else
    .error .valueError

/-- The rational `10^-20` in normal form, used as a numerically degenerate
(but strictly positive) first angular-momentum sample in examples. -/
def tinyL : ℚ := ⟨1, 10 ^ 20, by norm_num, Nat.coprime_one_left _⟩

/-- A concrete single-member orbit over two time samples whose angular
momentum about the z axis is `tinyL` at the first sample and `1` at the
second, and vanishes about the x and y axes. -/
def degenFirstOrbit : COrbit where
  pos := fun a => if a = 0 then [[tinyL, 1]] else [[0, 0]]
  vel := fun a => if a = 1 then [[1, 1]] else [[0, 0]]
  t := some [0, 1]
  potential := none
  frame := none

/-- A concrete single-member x-axis tube orbit over two time samples: its
angular momentum about x is constantly `1`, and it vanishes about y and z.
It carries a potential and a frame so Hamiltonian propagation is visible. -/
def tubeOrbitX : COrbit where
  pos := fun a => if a = 1 then [[1, 0]] else if a = 2 then [[0, 1]] else [[0, 0]]
  vel := fun a => if a = 2 then [[1, 0]] else if a = 1 then [[0, -1]] else [[0, 0]]
  t := some [0, 1]
  potential := some 5
  frame := some 7

/-! ### Supporting lemmas -/

lemma Lthreshold_eq : Lthreshold = 1 / 10 ^ 13 := by
  unfold Lthreshold
  rw [Rat.mk'_eq_divInt, Rat.divInt_eq_div]
  norm_num

lemma getD_map_neg (r : List ℚ) (i : ℕ) :
    (r.map (fun x => -x)).getD i 0 = -(r.getD i 0) := by
  simp only [List.getD_eq_getElem?_getD, List.getElem?_map]
  cases r[i]? <;> simp

lemma headD_map_neg (r : List ℚ) :
    (r.map (fun x => -x)).headD 0 = -(r.headD 0) := by
  cases r <;> simp

lemma map_getD_map_neg (r : List ℚ) (ix : List ℕ) :
    ((ix.map (fun i => (r.map (fun x => -x)).getD i 0)).map (fun x => -x)) =
      ix.map (fun i => r.getD i 0) := by
  rw [List.map_map]
  congr 1
  funext i
  simp only [Function.comp_apply, getD_map_neg, neg_neg]

lemma mem_interiorMaxIndices_iff (a : List ℚ) (i : ℕ) :
    i ∈ interiorMaxIndices a ↔
      0 < i ∧ i + 1 < a.length ∧
        a.getD (i - 1) 0 < a.getD i 0 ∧ a.getD (i + 1) 0 < a.getD i 0 := by
  unfold interiorMaxIndices argrelmaxWrap
  simp only [List.mem_filter, List.mem_range, Bool.and_eq_true, decide_eq_true_iff]
  constructor
  · rintro ⟨⟨hi, hwrap1, hwrap2⟩, hne0, hnelast⟩
    have h0 : 0 < i := Nat.pos_of_ne_zero hne0
    have hlast : i + 1 < a.length := by
      have h1 : i ≤ a.length - 1 := Nat.le_sub_one_of_lt hi
      have h2 : i < a.length - 1 := lt_of_le_of_ne h1 hnelast
      omega
    refine ⟨h0, hlast, ?_, ?_⟩
    · have : (i + a.length - 1) % a.length = i - 1 := by
        have hlen : 0 < a.length := lt_of_le_of_lt (Nat.zero_le _) hi
        have : i + a.length - 1 = (i - 1) + a.length := by omega
        rw [this, Nat.add_mod_right]
        exact Nat.mod_eq_of_lt (by omega)
      rwa [this] at hwrap1
    · have : (i + 1) % a.length = i + 1 := Nat.mod_eq_of_lt hlast
      rwa [this] at hwrap2
  · rintro ⟨h0, hlast, hleft, hright⟩
    have hi : i < a.length := by omega
    have hm1 : (i + a.length - 1) % a.length = i - 1 := by
      have : i + a.length - 1 = (i - 1) + a.length := by omega
      rw [this, Nat.add_mod_right]
      exact Nat.mod_eq_of_lt (by omega)
    have hm2 : (i + 1) % a.length = i + 1 := Nat.mod_eq_of_lt hlast
    exact ⟨⟨hi, by rwa [hm1], by rwa [hm2]⟩, by omega, by omega⟩

lemma mem_interiorMaxIndices_neg_iff (r : List ℚ) (i : ℕ) :
    i ∈ interiorMaxIndices (r.map (fun x => -x)) ↔
      0 < i ∧ i + 1 < r.length ∧
        r.getD i 0 < r.getD (i - 1) 0 ∧ r.getD i 0 < r.getD (i + 1) 0 := by
  rw [mem_interiorMaxIndices_iff]
  simp only [List.length_map, getD_map_neg, neg_lt_neg_iff]

lemma chain_headD_lt_getLastD :
    ∀ (t : List ℚ), 2 ≤ t.length → List.Chain' (· < ·) t →
      t.headD 0 < t.getLastD 0
  | [], h, _ => by simp at h
  | [_], h, _ => by simp at h
  | a :: b :: l, _, hch => by
    clear * - hch
    induction l generalizing a b with
    | nil =>
      simp only [List.chain'_cons, List.chain'_singleton, and_true] at hch
      simpa using hch
    | cons c l ih =>
      have h1 : a < b := (List.chain'_cons.mp hch).1
      have h2 := ih b c (List.chain'_cons.mp hch).2
      have hlast : (a :: b :: c :: l).getLastD 0 = (b :: c :: l).getLastD 0 := by
        simp [List.getLastD_eq_getLast?]
      simp only [List.headD_cons] at h2 ⊢
      rw [hlast]
      exact lt_trans h1 h2

lemma mapExcept_singleton (f : α → Except Err β) (x : α) :
    mapExcept f [x] = (f x).map (fun y => [y]) := by
  cases h : f x <;> simp [mapExcept, h, Except.map]

lemma mapExcept_ok_length (f : α → Except Err β) :
    ∀ (l : List α) (ys : List β), mapExcept f l = .ok ys → ys.length = l.length
  | [], ys, h => by
    simp only [mapExcept] at h
    cases h; rfl
  | x :: xs, ys, h => by
    simp only [mapExcept] at h
    cases hx : f x with
    | error e => rw [hx] at h; cases h
    | ok y =>
      rw [hx] at h
      cases hxs : mapExcept f xs with
      | error e => rw [hxs] at h; cases h
      | ok ys0 =>
        rw [hxs] at h
        cases h
        simp [mapExcept_ok_length f xs ys0 hxs]

lemma mapExcept_ok_forall (f : α → Except Err β) :
    ∀ (l : List α) (ys : List β), mapExcept f l = .ok ys →
      ∀ y ∈ ys, ∃ x ∈ l, f x = .ok y
  | [], ys, h => by
    simp only [mapExcept] at h
    cases h; intro y hy; simp at hy
  | x :: xs, ys, h => by
    simp only [mapExcept] at h
    cases hx : f x with
    | error e => rw [hx] at h; cases h
    | ok y0 =>
      rw [hx] at h
      cases hxs : mapExcept f xs with
      | error e => rw [hxs] at h; cases h
      | ok ys0 =>
        rw [hxs] at h
        cases h
        intro y hy
        rcases List.mem_cons.mp hy with hy | hy
        · exact ⟨x, List.mem_cons_self _ _, hy ▸ hx⟩
        · rcases mapExcept_ok_forall f xs ys0 hxs y hy with ⟨x0, hx0, hfx0⟩
          exact ⟨x0, List.mem_cons_of_mem _ hx0, hfx0⟩

lemma mapExcept_ok_get (f : α → Except Err β) (x0 : α) (y0 : β) :
    ∀ (l : List α) (ys : List β), mapExcept f l = .ok ys →
      ∀ n, n < l.length → f (l.getD n x0) = .ok (ys.getD n y0)
  | [], _, h => by
    simp only [mapExcept] at h
    cases h; intro n hn; simp at hn
  | x :: xs, ys, h => by
    simp only [mapExcept] at h
    cases hx : f x with
    | error e => rw [hx] at h; cases h
    | ok y =>
      rw [hx] at h
      cases hxs : mapExcept f xs with
      | error e => rw [hxs] at h; cases h
      | ok ys0 =>
        rw [hxs] at h
        cases h
        intro n hn
        match n with
        | 0 => simpa using hx
        | n + 1 =>
          simp only [List.getD_cons_succ]
          exact mapExcept_ok_get f x0 y0 xs ys0 hxs n (by simpa using hn)

lemma mapExcept_total (f : α → Except Err β) :
    ∀ (l : List α), (∀ x ∈ l, ∃ y, f x = .ok y) →
      ∃ ys, mapExcept f l = .ok ys
  | [], _ => ⟨[], rfl⟩
  | x :: xs, h => by
    rcases h x (List.mem_cons_self _ _) with ⟨y, hy⟩
    rcases mapExcept_total f xs (fun z hz => h z (List.mem_cons_of_mem _ hz)) with ⟨ys, hys⟩
    exact ⟨y :: ys, by simp [mapExcept, hy, hys]⟩

lemma rangeMap_getD {β : Type} (f : ℕ → β) (N n : ℕ) (d : β) (hn : n < N) :
    ((List.range N).map f).getD n d = f n := by
  rw [List.getD_eq_getElem?_getD, List.getElem?_map]
  simp [List.getElem?_range hn]

lemma getD_map_fst (pairs : List (List ℚ × List ℚ)) (k : ℕ) :
    (pairs.map Prod.fst).getD k [] = (pairs.getD k ([], [])).1 := by
  rw [List.getD_eq_getElem?_getD, List.getD_eq_getElem?_getD, List.getElem?_map]
  cases pairs[k]? <;> simp

lemma getD_map_snd (pairs : List (List ℚ × List ℚ)) (k : ℕ) :
    (pairs.map Prod.snd).getD k [] = (pairs.getD k ([], [])).2 := by
  rw [List.getD_eq_getElem?_getD, List.getD_eq_getElem?_getD, List.getElem?_map]
  cases pairs[k]? <;> simp

lemma getD_mem_of_lt {β : Type} (l : List β) (k : ℕ) (d : β) (hk : k < l.length) :
    l.getD k d ∈ l := by
  rw [List.getD_eq_getElem?_getD, List.getElem?_eq_getElem hk]
  exact List.getElem_mem hk

lemma maxReturnHelper_pair_shapes (pairs : List (List ℚ × List ℚ))
    (hp : ∀ p ∈ pairs, p.1.length = p.2.length) :
    (∀ vs ts, maxReturnHelper (pairs.map Prod.fst) (pairs.map Prod.snd) true none =
        .pairSingle vs ts → vs.length = ts.length) ∧
    (∀ vss tss, maxReturnHelper (pairs.map Prod.fst) (pairs.map Prod.snd) true none =
        .pairMulti vss tss → vss.length = tss.length ∧
          ∀ k, (vss.getD k []).length = (tss.getD k []).length) := by
  unfold maxReturnHelper
  rw [if_pos rfl]
  by_cases hl : (pairs.map Prod.fst).length = 1
  · rw [if_pos hl]
    constructor
    · intro vs ts hout
      cases hout
      rw [List.length_map] at hl
      rcases List.length_eq_one.mp hl with ⟨p, hpair⟩
      subst hpair
      simpa using hp p (List.mem_singleton_self p)
    · intro vss tss hout
      cases hout
  · rw [if_neg hl]
    constructor
    · intro vs ts hout
      cases hout
    · intro vss tss hout
      cases hout
      refine ⟨by simp, fun k => ?_⟩
      rw [getD_map_fst, getD_map_snd]
      by_cases hk : k < pairs.length
      · exact hp _ (getD_mem_of_lt pairs k ([], []) hk)
      · rw [List.getD_eq_getElem?_getD, List.getElem?_eq_none (by omega)]
        simp

lemma sgn_neg (q : ℚ) : sgn (-q) = -sgn q := by
  unfold sgn
  rcases lt_trichotomy q 0 with h | h | h
  · have h1 : (0 : ℚ) < -q := by linarith
    have h2 : ¬ (0 : ℚ) < q := by linarith
    simp [h1, h2, h]
  · subst h; norm_num
  · have h1 : ¬ (0 : ℚ) < -q := by linarith
    have h2 : -q < 0 := by linarith
    have h3 : ¬ q < 0 := by linarith
    simp [h1, h2, h3, h]

lemma circEntry_eq_one_iff (ls : List ℚ) :
    circEntry ls = 1 ↔
      ∀ v ∈ ls.drop 1, sgn (ls.headD 0) = sgn v ∧ Lthreshold ≤ |v| := by
  unfold circEntry
  by_cases h : (ls.drop 1).any (fun v =>
      decide (sgn (ls.headD 0) ≠ sgn v) || decide (|v| < Lthreshold)) = true
  · rw [if_pos h]
    simp only [List.any_eq_true, Bool.or_eq_true, decide_eq_true_iff] at h
    rcases h with ⟨v, hv, hcond⟩
    constructor
    · intro h01; exact absurd h01 (by decide)
    · intro hall
      rcases hall v hv with ⟨hs, ha⟩
      rcases hcond with hc | hc
      · exact absurd hs hc
      · exact absurd hc (not_lt.mpr ha)
  · rw [if_neg h]
    refine ⟨fun _ v hv => ⟨?_, ?_⟩, fun _ => rfl⟩
    · by_contra hA
      exact h (by
        simp only [List.any_eq_true, Bool.or_eq_true, decide_eq_true_iff]
        exact ⟨v, hv, Or.inl hA⟩)
    · by_contra hB
      rw [not_le] at hB
      exact h (by
        simp only [List.any_eq_true, Bool.or_eq_true, decide_eq_true_iff]
        exact ⟨v, hv, Or.inr hB⟩)

lemma circEntry_zero_or_one (ls : List ℚ) :
    circEntry ls = 0 ∨ circEntry ls = 1 := by
  unfold circEntry
  split
  · exact Or.inl rfl
  · exact Or.inr rfl

lemma circEntry_map_neg (ls : List ℚ) :
    circEntry (ls.map (fun x => -x)) = circEntry ls := by
  unfold circEntry
  have hdrop : (ls.map (fun x => -x)).drop 1 = (ls.drop 1).map (fun x => -x) := by
    cases ls <;> simp
  rw [hdrop, headD_map_neg, List.any_map]
  have harg : ((fun v => decide (sgn ((-ls.headD 0 : ℚ)) ≠ sgn v) ||
        decide (|v| < Lthreshold)) ∘ (fun x : ℚ => -x)) =
      (fun v => decide (sgn (ls.headD 0) ≠ sgn v) || decide (|v| < Lthreshold)) := by
    funext v
    simp [sgn_neg, abs_neg, ne_eq, neg_inj]
  rw [harg]

lemma zipWith_sub_swap :
    ∀ (X Y : List ℚ), List.zipWith (fun a b => a - b) Y X =
      (List.zipWith (fun a b => a - b) X Y).map (fun x => -x)
  | [], _ => by simp
  | _ :: _, [] => by simp
  | x :: xs, y :: ys => by
    simp only [List.zipWith_cons_cons, List.map_cons, neg_sub, List.cons.injEq, true_and]
    exact zipWith_sub_swap xs ys

lemma reverseTime_reverseTime (o : SOrbit) : reverseTime (reverseTime o) = o := by
  cases o with
  | mk t rs zs =>
    simp [reverseTime, Option.map_map, List.map_map, Function.comp_def]

lemma getLastD_reverse (l : List ℚ) (d : ℚ) : l.reverse.getLastD d = l.headD d := by
  rw [List.getLastD_eq_getLast?, List.getLast?_reverse, List.headD_eq_head?]

lemma headD_reverse (l : List ℚ) (d : ℚ) : l.reverse.headD d = l.getLastD d := by
  rw [List.headD_eq_head?, List.head?_reverse, List.getLastD_eq_getLast?]

lemma pericenter_reverseTime (o : SOrbit) (t0 : List ℚ) (ht : o.t = some t0)
    (hf : t0.headD 0 < t0.getLastD 0) (opts : Opts) :
    pericenter (reverseTime o) opts = pericenter o opts := by
  have hrev_t : (reverseTime o).t = some t0.reverse := by simp [reverseTime, ht]
  have hcond_rev : t0.reverse.getLastD 0 < t0.reverse.headD 0 := by
    rw [getLastD_reverse, headD_reverse]; exact hf
  have hcond_fwd : ¬ t0.getLastD 0 < t0.headD 0 := not_lt.mpr (le_of_lt hf)
  unfold pericenter
  rw [hrev_t, ht]
  by_cases hrt : (opts.rtimes && opts.func.isSome) = true
  · simp [hrt]
  · simp only [hrt, Bool.false_eq_true, if_false]
    rw [if_pos hcond_rev, if_neg hcond_fwd, reverseTime_reverseTime]

lemma apocenter_reverseTime (o : SOrbit) (t0 : List ℚ) (ht : o.t = some t0)
    (hf : t0.headD 0 < t0.getLastD 0) (opts : Opts) :
    apocenter (reverseTime o) opts = apocenter o opts := by
  have hrev_t : (reverseTime o).t = some t0.reverse := by simp [reverseTime, ht]
  have hcond_rev : t0.reverse.getLastD 0 < t0.reverse.headD 0 := by
    rw [getLastD_reverse, headD_reverse]; exact hf
  have hcond_fwd : ¬ t0.getLastD 0 < t0.headD 0 := not_lt.mpr (le_of_lt hf)
  unfold apocenter
  rw [hrev_t, ht]
  by_cases hrt : (opts.rtimes && opts.func.isSome) = true
  · simp [hrt]
  · simp only [hrt, Bool.false_eq_true, if_false]
    rw [if_pos hcond_rev, if_neg hcond_fwd, reverseTime_reverseTime]

lemma zmax_reverseTime (o : SOrbit) (t0 : List ℚ) (ht : o.t = some t0)
    (hf : t0.headD 0 < t0.getLastD 0) (opts : Opts) :
    zmax (reverseTime o) opts = zmax o opts := by
  have hrev_t : (reverseTime o).t = some t0.reverse := by simp [reverseTime, ht]
  have hcond_rev : t0.reverse.getLastD 0 < t0.reverse.headD 0 := by
    rw [getLastD_reverse, headD_reverse]; exact hf
  have hcond_fwd : ¬ t0.getLastD 0 < t0.headD 0 := not_lt.mpr (le_of_lt hf)
  unfold zmax
  rw [hrev_t, ht]
  by_cases hrt : (opts.rtimes && opts.func.isSome) = true
  · simp [hrt]
  · simp only [hrt, Bool.false_eq_true, if_false]
    rw [if_pos hcond_rev, if_neg hcond_fwd, reverseTime_reverseTime]

lemma maxHelper_approx_eq (om : SplineMin) (t a : List ℚ)
    (ha : t.headD 0 < t.getLastD 0) :
    maxHelper om t a true =
      .ok ((interiorMaxIndices a).map (fun i => a.getD i 0),
        (interiorMaxIndices a).map (fun i => t.getD i 0)) := by
  unfold maxHelper
  rw [if_pos ha]
  simp

lemma pericenter_single_approx (t r z : List ℚ) (om : SplineMin)
    (ha : t.headD 0 < t.getLastD 0) :
    pericenter ⟨some t, [r], [z]⟩ ⟨true, none, true, om⟩ =
      .ok (.pairSingle
        ((interiorMaxIndices (r.map (fun x => -x))).map (fun i => r.getD i 0))
        ((interiorMaxIndices (r.map (fun x => -x))).map (fun i => t.getD i 0))) := by
  have hcond : ¬ t.getLastD 0 < t.headD 0 := not_lt.mpr (le_of_lt ha)
  unfold pericenter
  simp only [Option.isSome_none, Bool.and_false, Bool.false_eq_true, if_false,
    hcond, reverseTime, Option.getD_some, mapExcept_singleton,
    maxHelper_approx_eq om _ _ ha, Except.map, maxReturnHelper,
    List.length_singleton, if_true, List.map_cons, List.map_nil, List.headD_cons,
    map_getD_map_neg]

lemma apocenter_single_approx (t r z : List ℚ) (om : SplineMin)
    (ha : t.headD 0 < t.getLastD 0) :
    apocenter ⟨some t, [r], [z]⟩ ⟨true, none, true, om⟩ =
      .ok (.pairSingle
        ((interiorMaxIndices r).map (fun i => r.getD i 0))
        ((interiorMaxIndices r).map (fun i => t.getD i 0))) := by
  have hcond : ¬ t.getLastD 0 < t.headD 0 := not_lt.mpr (le_of_lt ha)
  unfold apocenter
  simp only [Option.isSome_none, Bool.and_false, Bool.false_eq_true, if_false,
    hcond, reverseTime, Option.getD_some, mapExcept_singleton,
    maxHelper_approx_eq om _ _ ha, Except.map, maxReturnHelper,
    List.length_singleton, if_true, List.map_cons, List.map_nil, List.headD_cons]

lemma maxHelper_ok_lengths (om : SplineMin) (t a : List ℚ) (ap : Bool)
    (p : List ℚ × List ℚ) (h : maxHelper om t a ap = .ok p) :
    p.1.length = (interiorMaxIndices a).length ∧
      p.2.length = (interiorMaxIndices a).length := by
  unfold maxHelper at h
  by_cases hc : t.headD 0 < t.getLastD 0
  · rw [if_pos hc] at h
    cases ap with
    | true =>
      simp only [if_true] at h
      cases h
      constructor <;> simp
    | false =>
      simp only [Bool.false_eq_true, if_false] at h
      cases h
      constructor <;> simp
  · rw [if_neg hc] at h
    cases h


lemma pericenter_ok_exists_pairs (o : SOrbit) (opts : Opts) (out : MaxOut)
    (h : pericenter o opts = .ok out) :
    ∃ pairs : List (List ℚ × List ℚ),
      (∀ p ∈ pairs, p.1.length = p.2.length) ∧
      out = maxReturnHelper (pairs.map Prod.fst) (pairs.map Prod.snd)
        opts.rtimes opts.func := by
  unfold pericenter at h
  split at h
  · cases h
  · split at h
    · cases h
    · split at h
      all_goals
        dsimp only at h
        split at h
        · cases h
        · rename_i pairs hmap
          cases h
          refine ⟨pairs, ?_, rfl⟩
          intro p hpmem
          rcases mapExcept_ok_forall _ _ _ hmap p hpmem with ⟨r, _, hfr⟩
          split at hfr
          · cases hfr
          · rename_i q hq
            cases hfr
            rcases maxHelper_ok_lengths _ _ _ _ _ hq with ⟨h1, h2⟩
            simp [h1, h2]


lemma hamiltonianOf_mkFromHamiltonian (pos vel : Fin 3 → List (List ℚ))
    (t : Option (List ℚ)) (h : Option (ℕ × ℕ)) :
    hamiltonianOf (mkFromHamiltonian pos vel t h) = h := by
  cases h with
  | none => rfl
  | some pf => cases pf; rfl

lemma range_getD (N n : ℕ) (hn : n < N) : (List.range N).getD n 0 = n := by
  rw [List.getD_eq_getElem?_getD, List.getElem?_range hn]
  rfl

lemma atleast2dInsert1_circulationOut (o : COrbit) :
    atleast2dInsert1 (circulationOut o) = circulationMatrix o := by
  unfold circulationOut circulationMatrix
  by_cases h : norbits o = 1
  · rw [if_pos h, h]
    rfl
  · rw [if_neg h]
    rfl

lemma circulationMatrix_shape (o : COrbit) :
    (circulationMatrix o).length = 3 ∧
      ((circulationMatrix o).headD []).length = norbits o := by
  unfold circulationMatrix
  constructor
  · rfl
  · simp

lemma alignMemberAxis_of_entries (c0 c1 c2 : ℤ)
    (h0 : c0 = 0 ∨ c0 = 1) (h1 : c1 = 0 ∨ c1 = 1) (h2 : c2 = 0 ∨ c2 = 1) :
    ∃ y, alignMemberAxis c0 c1 c2 = .ok y := by
  unfold alignMemberAxis
  by_cases hA : c2 = 1 ∨ (c0 = 0 ∧ c1 = 0 ∧ c2 = 0)
  · rw [if_pos hA]; exact ⟨none, rfl⟩
  · rw [if_neg hA]
    rcases h0 with h0 | h0
    · rcases h1 with h1 | h1
      · exfalso
        rcases h2 with h2 | h2
        · exact hA (Or.inr ⟨h0, h1, h2⟩)
        · exact hA (Or.inl h2)
      · rw [if_neg (by omega), if_pos h1]; exact ⟨some 1, rfl⟩
    · rw [if_pos h0]; exact ⟨some 0, rfl⟩

lemma circulationMatrix_row0 (o : COrbit) :
    (circulationMatrix o).getD 0 [] =
      (List.range (norbits o)).map (fun n => circEntry (Lser o 0 n)) := rfl

lemma circulationMatrix_row1 (o : COrbit) :
    (circulationMatrix o).getD 1 [] =
      (List.range (norbits o)).map (fun n => circEntry (Lser o 1 n)) := rfl

lemma circulationMatrix_row2 (o : COrbit) :
    (circulationMatrix o).getD 2 [] =
      (List.range (norbits o)).map (fun n => circEntry (Lser o 2 n)) := rfl

lemma align_none_ok (o : COrbit) :
    ∃ swaps : List (Option (Fin 3)),
      alignCirculationWithZ o none = .ok (mkFromHamiltonian
        (fun a => (List.range (norbits o)).map (fun n =>
          match swaps.getD n none with
          | none => (o.pos a).getD n []
          | some c => (o.pos (swapAx c a)).getD n []))
        (fun a => (List.range (norbits o)).map (fun n =>
          match swaps.getD n none with
          | none => (o.vel a).getD n []
          | some c => (o.vel (swapAx c a)).getD n []))
        o.t (hamiltonianOf o)) ∧
      ∀ n, n < norbits o →
        alignMemberAxis (circEntry (Lser o 0 n)) (circEntry (Lser o 1 n))
          (circEntry (Lser o 2 n)) = .ok (swaps.getD n none) := by
  have hshape := circulationMatrix_shape o
  have htotal : ∀ n ∈ List.range (norbits o), ∃ y,
      alignMemberAxis (((circulationMatrix o).getD 0 []).getD n 0)
        (((circulationMatrix o).getD 1 []).getD n 0)
        (((circulationMatrix o).getD 2 []).getD n 0) = .ok y := by
    intro n hn
    rw [List.mem_range] at hn
    rw [circulationMatrix_row0, circulationMatrix_row1, circulationMatrix_row2,
      rangeMap_getD _ _ _ _ hn, rangeMap_getD _ _ _ _ hn, rangeMap_getD _ _ _ _ hn]
    exact alignMemberAxis_of_entries _ _ _ (circEntry_zero_or_one _)
      (circEntry_zero_or_one _) (circEntry_zero_or_one _)
  rcases mapExcept_total _ _ htotal with ⟨swaps, hswaps⟩
  refine ⟨swaps, ?_, ?_⟩
  · unfold alignCirculationWithZ
    dsimp only
    rw [atleast2dInsert1_circulationOut o, if_pos ⟨hshape.1, hshape.2⟩, hswaps]
  · intro n hn
    have := mapExcept_ok_get _ 0 none _ _ hswaps n (by simpa using hn)
    rw [range_getD _ _ hn] at this
    rw [circulationMatrix_row0, circulationMatrix_row1, circulationMatrix_row2,
      rangeMap_getD _ _ _ _ hn, rangeMap_getD _ _ _ _ hn,
      rangeMap_getD _ _ _ _ hn] at this
    exact this

lemma Lser_swap (o orb : COrbit) (c : Fin 3) (hc : c = 0 ∨ c = 1) (n : ℕ)
    (hpos : ∀ b : Fin 3, (orb.pos b).getD n [] = (o.pos (swapAx c b)).getD n [])
    (hvel : ∀ b : Fin 3, (orb.vel b).getD n [] = (o.vel (swapAx c b)).getD n [])
    (a : Fin 3) :
    Lser orb a n = (Lser o (swapAx c a) n).map (fun x => -x) := by
  rcases hc with hc | hc <;> subst hc <;> fin_cases a <;>
    (simp only [Lser, hpos, hvel]
     rw [← zipWith_sub_swap]
     rfl)

lemma circulationMatrix_row (o : COrbit) (a : Fin 3) :
    (circulationMatrix o).getD a.val [] =
      (List.range (norbits o)).map (fun n => circEntry (Lser o a n)) := by
  fin_cases a
  · exact circulationMatrix_row0 o
  · exact circulationMatrix_row1 o
  · exact circulationMatrix_row2 o

lemma tinyL_eq : tinyL = 1 / 10 ^ 20 := by
  unfold tinyL
  rw [Rat.mk'_eq_divInt, Rat.divInt_eq_div]
  norm_num

lemma tinyL_pos : 0 < tinyL := by
  rw [tinyL_eq]
  norm_num

lemma sgn_tinyL : sgn tinyL = 1 := by
  unfold sgn
  rw [if_pos tinyL_pos]

lemma sgn_one : sgn 1 = 1 := by
  norm_num [sgn]

lemma sgn_zero : sgn 0 = 0 := by
  norm_num [sgn]

lemma Lthreshold_pos : 0 < Lthreshold := by
  rw [Lthreshold_eq]
  norm_num

lemma Lthreshold_le_one : Lthreshold ≤ 1 := by
  rw [Lthreshold_eq]
  norm_num

lemma one_not_lt_Lthreshold : ¬ (|(1 : ℚ)| < Lthreshold) := by
  rw [abs_one, Lthreshold_eq]
  norm_num

lemma zero_lt_Lthreshold : |(0 : ℚ)| < Lthreshold := by
  rw [abs_zero, Lthreshold_eq]
  norm_num

lemma circEntry_tinyL_one : circEntry [tinyL, 1] = 1 := by
  simp [circEntry, sgn_tinyL, sgn_one, one_not_lt_Lthreshold, Lthreshold_le_one]

lemma circEntry_one_one : circEntry [(1 : ℚ), 1] = 1 := by
  simp [circEntry, sgn_one, one_not_lt_Lthreshold, Lthreshold_le_one]

lemma circEntry_zero_zero : circEntry [(0 : ℚ), 0] = 0 := by
  simp [circEntry, zero_lt_Lthreshold, Lthreshold_pos]

lemma Lser_degen_z : Lser degenFirstOrbit 2 0 = [tinyL, 1] := by
  simp [Lser, degenFirstOrbit]

lemma norbits_degen : norbits degenFirstOrbit = 1 := by
  simp [norbits, degenFirstOrbit]

lemma Lser_tube_x : Lser tubeOrbitX 0 0 = [1, 1] := by
  simp [Lser, tubeOrbitX]

lemma Lser_tube_y : Lser tubeOrbitX 1 0 = [0, 0] := by
  simp [Lser, tubeOrbitX]

lemma Lser_tube_z : Lser tubeOrbitX 2 0 = [0, 0] := by
  simp [Lser, tubeOrbitX]

lemma norbits_tube : norbits tubeOrbitX = 1 := by
  simp [norbits, tubeOrbitX]

lemma range_one_eq : List.range 1 = [0] := by decide

lemma circulationMatrix_tube : circulationMatrix tubeOrbitX = [[1], [0], [0]] := by
  unfold circulationMatrix
  rw [norbits_tube, range_one_eq]
  simp only [List.map_cons, List.map_nil]
  rw [Lser_tube_x, Lser_tube_y, Lser_tube_z, circEntry_one_one, circEntry_zero_zero]

/-! ### Claims -/

/-- C1: for a single orbit with strictly increasing time, `pericenter` is the
local-maximum finder run on the negated radial distance with the values
negated back, and `apocenter` the finder run directly on the radial
distance; in approximate mode each returned value is the sampled radial
distance at a detected index, every pericenter index is a strict local
minimum of `r`, and every apocenter index a strict local maximum of `r`. -/
theorem pericenter_apocenter_local_extrema (t r z : List ℚ) (om : SplineMin)
    (hlen : 2 ≤ t.length) (hmono : List.Chain' (· < ·) t) :
    pericenter ⟨some t, [r], [z]⟩ ⟨true, none, true, om⟩ =
      .ok (.pairSingle
        ((interiorMaxIndices (r.map (fun x => -x))).map (fun i => r.getD i 0))
        ((interiorMaxIndices (r.map (fun x => -x))).map (fun i => t.getD i 0))) ∧
    apocenter ⟨some t, [r], [z]⟩ ⟨true, none, true, om⟩ =
      .ok (.pairSingle
        ((interiorMaxIndices r).map (fun i => r.getD i 0))
        ((interiorMaxIndices r).map (fun i => t.getD i 0))) ∧
    (∀ i ∈ interiorMaxIndices (r.map (fun x => -x)),
      0 < i ∧ i + 1 < r.length ∧
        r.getD i 0 < r.getD (i - 1) 0 ∧ r.getD i 0 < r.getD (i + 1) 0) ∧
    (∀ i ∈ interiorMaxIndices r,
      0 < i ∧ i + 1 < r.length ∧
        r.getD (i - 1) 0 < r.getD i 0 ∧ r.getD (i + 1) 0 < r.getD i 0) := by
  have ha := chain_headD_lt_getLastD t hlen hmono
  exact ⟨pericenter_single_approx t r z om ha,
    apocenter_single_approx t r z om ha,
    fun i hi => (mem_interiorMaxIndices_neg_iff r i).mp hi,
    fun i hi => (mem_interiorMaxIndices_iff r i).mp hi⟩

/-- Witness for C1 on the sampled series `r = 2 + sin`-like data of the
spec example: the pericenters are the interior minima `1` at indices `3, 7`
and the apocenters the interior maxima `3` at indices `1, 5`. -/
theorem pericenter_apocenter_local_extrema_witness :
    (2 ≤ ([0, 1, 2, 3, 4, 5, 6, 7, 8] : List ℚ).length ∧
      List.Chain' (· < ·) ([0, 1, 2, 3, 4, 5, 6, 7, 8] : List ℚ)) ∧
    pericenter ⟨some [0, 1, 2, 3, 4, 5, 6, 7, 8], [[2, 3, 2, 1, 2, 3, 2, 1, 2]],
        [[0, 0, 0, 0, 0, 0, 0, 0, 0]]⟩ ⟨true, none, true, trivOracle⟩ =
      .ok (.pairSingle [1, 1] [3, 7]) := by
  refine ⟨⟨by decide, by norm_num [List.chain'_cons]⟩, ?_⟩
  have h := (pericenter_apocenter_local_extrema [0, 1, 2, 3, 4, 5, 6, 7, 8]
    [2, 3, 2, 1, 2, 3, 2, 1, 2] [0, 0, 0, 0, 0, 0, 0, 0, 0] trivOracle
    (by decide) (by norm_num [List.chain'_cons])).1
  exact h.trans (congrArg Except.ok (by decide))

/-- C2 (amended): a circulation entry is always 0 or 1, and it is 1 exactly
when no sample after the first has an angular-momentum sign about that axis
differing from the sign at the first sample and no sample after the first
has magnitude below the fixed `1E-13` threshold.  The first sample only
contributes its reference sign; its own magnitude is not thresholded. -/
theorem circulation_sign_threshold_iff (o : COrbit) (a : Fin 3) (n : ℕ)
    (hn : n < norbits o) :
    (((circulationMatrix o).getD a.val []).getD n 0 = 0 ∨
      ((circulationMatrix o).getD a.val []).getD n 0 = 1) ∧
    (((circulationMatrix o).getD a.val []).getD n 0 = 1 ↔
      ∀ v ∈ (Lser o a n).drop 1,
        sgn ((Lser o a n).headD 0) = sgn v ∧ Lthreshold ≤ |v|) := by
  rw [circulationMatrix_row, rangeMap_getD _ _ _ _ hn]
  exact ⟨circEntry_zero_or_one _, circEntry_eq_one_iff _⟩

/-- Counterexample to the last sentence of C2: `degenFirstOrbit` has
z-axis angular momentum `10^-20` at the first sample — numerically
degenerate, far below the `1E-13` threshold — and `1` afterwards, yet
`circulation` classifies it as circulating about z (entry 1), because the
source thresholds only the samples after the first. -/
theorem circulation_first_sample_degenerate_cex :
    ((circulationMatrix degenFirstOrbit).getD 2 []).getD 0 0 = 1 ∧
    |(Lser degenFirstOrbit 2 0).headD 0| < Lthreshold := by
  constructor
  · rw [show ((2 : ℕ) = ((2 : Fin 3)).val) from rfl, circulationMatrix_row,
      rangeMap_getD _ _ _ _ (by rw [norbits_degen]; omega), Lser_degen_z,
      circEntry_tinyL_one]
  · rw [Lser_degen_z]
    simp only [List.headD_cons]
    rw [abs_of_pos tinyL_pos, tinyL_eq, Lthreshold_eq]
    norm_num

/-- Witness for C2 at the concrete degenerate-first-sample orbit and the
z axis. -/
theorem circulation_sign_threshold_iff_witness :
    0 < norbits degenFirstOrbit ∧
    (((circulationMatrix degenFirstOrbit).getD (2 : Fin 3).val []).getD 0 0 = 0 ∨
      ((circulationMatrix degenFirstOrbit).getD (2 : Fin 3).val []).getD 0 0 = 1) :=
  ⟨by rw [norbits_degen]; omega,
    (circulation_sign_threshold_iff degenFirstOrbit 2 0
      (by rw [norbits_degen]; omega)).1⟩

/-- C3: with `return_times=True` and any non-identity reducer, `pericenter`,
`apocenter` and `zmax` all raise `ValueError`; with `func=None` the raw
per-extremum value/time pairs are returned with matching lengths (for one
body and for a batch), and for a single forward-time body in approximate
mode the output is exactly one (value, time) pair per detected extremum
index. -/
theorem extrema_return_times_policy (o : SOrbit) (f : List ℚ → ℚ)
    (om : SplineMin) (ap : Bool) :
    (pericenter o ⟨true, some f, ap, om⟩ = .error .valueError ∧
      apocenter o ⟨true, some f, ap, om⟩ = .error .valueError ∧
      zmax o ⟨true, some f, ap, om⟩ = .error .valueError) ∧
    (∀ out, pericenter o ⟨true, none, ap, om⟩ = .ok out →
      (∀ vs ts, out = .pairSingle vs ts → vs.length = ts.length) ∧
      (∀ vss tss, out = .pairMulti vss tss → vss.length = tss.length ∧
        ∀ k, (vss.getD k []).length = (tss.getD k []).length)) ∧
    (∀ t r z, o = ⟨some t, [r], [z]⟩ → t.headD 0 < t.getLastD 0 →
      pericenter o ⟨true, none, true, om⟩ =
        .ok (.pairSingle
          ((interiorMaxIndices (r.map (fun x => -x))).map (fun i => r.getD i 0))
          ((interiorMaxIndices (r.map (fun x => -x))).map (fun i => t.getD i 0)))) := by
  refine ⟨⟨rfl, rfl, rfl⟩, ?_, ?_⟩
  · intro out hout
    rcases pericenter_ok_exists_pairs o ⟨true, none, ap, om⟩ out hout with ⟨pairs, hp, hshape⟩
    rcases maxReturnHelper_pair_shapes pairs hp with ⟨hsingle, hmulti⟩
    exact ⟨fun vs ts h => hsingle vs ts (hshape ▸ h),
      fun vss tss h => hmulti vss tss (hshape ▸ h)⟩
  · intro t r z ho ha
    subst ho
    exact pericenter_single_approx t r z om ha

/-- Witness for C3 at a concrete single-pericenter orbit: the reducing call
errors and the `func=None` call returns the matching pair lists. -/
theorem extrema_return_times_policy_witness :
    pericenter ⟨some [0, 1, 2], [[1, 0, 1]], [[0, 0, 0]]⟩
        ⟨true, some mean, true, trivOracle⟩ = .error .valueError ∧
    pericenter ⟨some [0, 1, 2], [[1, 0, 1]], [[0, 0, 0]]⟩
        ⟨true, none, true, trivOracle⟩ = .ok (.pairSingle [0] [1]) := by
  constructor
  · exact (extrema_return_times_policy ⟨some [0, 1, 2], [[1, 0, 1]], [[0, 0, 0]]⟩
      mean trivOracle true).1.1
  · have h := (extrema_return_times_policy ⟨some [0, 1, 2], [[1, 0, 1]], [[0, 0, 0]]⟩
      mean trivOracle true).2.2 [0, 1, 2] [1, 0, 1] [0, 0, 0] rfl (by decide)
    exact h.trans (congrArg Except.ok (by decide))

lemma pericenter_single_approx_reduced (t r z : List ℚ) (f : List ℚ → ℚ)
    (om : SplineMin) (ha : t.headD 0 < t.getLastD 0) :
    pericenter ⟨some t, [r], [z]⟩ ⟨false, some f, true, om⟩ =
      .ok (.reduced
        [f ((interiorMaxIndices (r.map (fun x => -x))).map (fun i => r.getD i 0))]) := by
  have hcond : ¬ t.getLastD 0 < t.headD 0 := not_lt.mpr (le_of_lt ha)
  unfold pericenter
  simp only [Bool.false_and, Bool.false_eq_true, if_false, hcond, reverseTime,
    Option.getD_some, mapExcept_singleton, maxHelper_approx_eq om _ _ ha,
    Except.map, maxReturnHelper, List.map_cons, List.map_nil,
    map_getD_map_neg]

lemma apocenter_single_approx_reduced (t r z : List ℚ) (f : List ℚ → ℚ)
    (om : SplineMin) (ha : t.headD 0 < t.getLastD 0) :
    apocenter ⟨some t, [r], [z]⟩ ⟨false, some f, true, om⟩ =
      .ok (.reduced [f ((interiorMaxIndices r).map (fun i => r.getD i 0))]) := by
  have hcond : ¬ t.getLastD 0 < t.headD 0 := not_lt.mpr (le_of_lt ha)
  unfold apocenter
  simp only [Bool.false_and, Bool.false_eq_true, if_false, hcond, reverseTime,
    Option.getD_some, mapExcept_singleton, maxHelper_approx_eq om _ _ ha,
    Except.map, maxReturnHelper, List.map_cons, List.map_nil]

/-- C4: `eccentricity` forwards its keyword options verbatim to both
`apocenter` and `pericenter` and combines their (reduced) results
elementwise as `(r_apo - r_peri) / (r_apo + r_peri)`. -/
theorem eccentricity_formula_forwarding (o : SOrbit) (opts : Opts)
    (a p : List ℚ) (hA : apocenter o opts = .ok (.reduced a))
    (hP : pericenter o opts = .ok (.reduced p)) :
    eccentricity o opts =
      .ok (.reduced (List.zipWith (fun x y => (x - y) / (x + y)) a p)) := by
  unfold eccentricity
  rw [hA, hP]
  rfl

/-- Witness for C4 on the spec example series (pericenter 1, apocenter 3):
the mean-reduced eccentricity is `(3 - 1) / (3 + 1) = 1/2`. -/
theorem eccentricity_formula_forwarding_witness :
    apocenter ⟨some [0, 1, 2, 3, 4, 5, 6, 7, 8], [[2, 3, 2, 1, 2, 3, 2, 1, 2]],
        [[0, 0, 0, 0, 0, 0, 0, 0, 0]]⟩ ⟨false, some mean, true, trivOracle⟩ =
      .ok (.reduced [3]) ∧
    pericenter ⟨some [0, 1, 2, 3, 4, 5, 6, 7, 8], [[2, 3, 2, 1, 2, 3, 2, 1, 2]],
        [[0, 0, 0, 0, 0, 0, 0, 0, 0]]⟩ ⟨false, some mean, true, trivOracle⟩ =
      .ok (.reduced [1]) ∧
    eccentricity ⟨some [0, 1, 2, 3, 4, 5, 6, 7, 8], [[2, 3, 2, 1, 2, 3, 2, 1, 2]],
        [[0, 0, 0, 0, 0, 0, 0, 0, 0]]⟩ ⟨false, some mean, true, trivOracle⟩ =
      .ok (.reduced [1 / 2]) := by
  have hA := apocenter_single_approx_reduced [0, 1, 2, 3, 4, 5, 6, 7, 8]
    [2, 3, 2, 1, 2, 3, 2, 1, 2] [0, 0, 0, 0, 0, 0, 0, 0, 0] mean trivOracle (by decide)
  have hP := pericenter_single_approx_reduced [0, 1, 2, 3, 4, 5, 6, 7, 8]
    [2, 3, 2, 1, 2, 3, 2, 1, 2] [0, 0, 0, 0, 0, 0, 0, 0, 0] mean trivOracle (by decide)
  have hAv : ((interiorMaxIndices [2, 3, 2, 1, 2, 3, 2, 1, 2]).map
      (fun i => ([2, 3, 2, 1, 2, 3, 2, 1, 2] : List ℚ).getD i 0)) = [3, 3] := by decide
  have hPv : ((interiorMaxIndices (([2, 3, 2, 1, 2, 3, 2, 1, 2] : List ℚ).map
      (fun x => -x))).map
      (fun i => ([2, 3, 2, 1, 2, 3, 2, 1, 2] : List ℚ).getD i 0)) = [1, 1] := by decide
  rw [hAv] at hA
  rw [hPv] at hP
  have hmA : mean [3, 3] = 3 := by norm_num [mean]
  have hmP : mean [1, 1] = 1 := by norm_num [mean]
  rw [hmA] at hA
  rw [hmP] at hP
  refine ⟨hA, hP, ?_⟩
  have h := eccentricity_formula_forwarding _ _ [3] [1] hA hP
  rw [h]
  congr 1
  simp only [List.zipWith_cons_cons, List.zipWith_nil_right, MaxOut.reduced.injEq]
  norm_num

/-- C5: for an orbit with forward time (first sample time below the last),
feeding in the end-to-end time-reversed copy gives results identical to the
forward-time input for `pericenter`, `apocenter`, `zmax` and
`eccentricity`: the estimators detect the reversed time array and operate
on the re-reversed (hence original) orbit. -/
theorem time_reversal_invariance (o : SOrbit) (t0 : List ℚ)
    (ht : o.t = some t0) (hf : t0.headD 0 < t0.getLastD 0) (opts : Opts) :
    pericenter (reverseTime o) opts = pericenter o opts ∧
    apocenter (reverseTime o) opts = apocenter o opts ∧
    zmax (reverseTime o) opts = zmax o opts ∧
    eccentricity (reverseTime o) opts = eccentricity o opts := by
  refine ⟨pericenter_reverseTime o t0 ht hf opts,
    apocenter_reverseTime o t0 ht hf opts,
    zmax_reverseTime o t0 ht hf opts, ?_⟩
  unfold eccentricity
  rw [pericenter_reverseTime o t0 ht hf opts, apocenter_reverseTime o t0 ht hf opts]

/-- Witness for C5 at the spec example orbit with the mean-reducing
approximate options. -/
theorem time_reversal_invariance_witness :
    pericenter (reverseTime ⟨some [0, 1, 2, 3, 4, 5, 6, 7, 8],
        [[2, 3, 2, 1, 2, 3, 2, 1, 2]], [[0, 0, 0, 0, 0, 0, 0, 0, 0]]⟩)
        ⟨false, some mean, true, trivOracle⟩ =
      pericenter ⟨some [0, 1, 2, 3, 4, 5, 6, 7, 8],
        [[2, 3, 2, 1, 2, 3, 2, 1, 2]], [[0, 0, 0, 0, 0, 0, 0, 0, 0]]⟩
        ⟨false, some mean, true, trivOracle⟩ ∧
    eccentricity (reverseTime ⟨some [0, 1, 2, 3, 4, 5, 6, 7, 8],
        [[2, 3, 2, 1, 2, 3, 2, 1, 2]], [[0, 0, 0, 0, 0, 0, 0, 0, 0]]⟩)
        ⟨false, some mean, true, trivOracle⟩ =
      eccentricity ⟨some [0, 1, 2, 3, 4, 5, 6, 7, 8],
        [[2, 3, 2, 1, 2, 3, 2, 1, 2]], [[0, 0, 0, 0, 0, 0, 0, 0, 0]]⟩
        ⟨false, some mean, true, trivOracle⟩ := by
  have h := time_reversal_invariance ⟨some [0, 1, 2, 3, 4, 5, 6, 7, 8],
    [[2, 3, 2, 1, 2, 3, 2, 1, 2]], [[0, 0, 0, 0, 0, 0, 0, 0, 0]]⟩
    [0, 1, 2, 3, 4, 5, 6, 7, 8] rfl (by decide)
    ⟨false, some mean, true, trivOracle⟩
  exact ⟨h.1, h.2.2.2⟩

/-- C6: `estimate_period` raises `ValueError` when the orbit has no time
array (for both the radial and the non-radial request), and the non-radial
per-axis request raises `NotImplementedError` whenever a time array is
present; neither case returns a value. -/
theorem estimate_period_errors (o : SOrbit) :
    (o.t = none → ∀ radial, estimatePeriod o radial = .error .valueError) ∧
    (∀ t0, o.t = some t0 → estimatePeriod o false = .error .notImplementedError) := by
  constructor
  · intro ht radial
    unfold estimatePeriod
    rw [ht]
  · intro t0 ht
    unfold estimatePeriod
    rw [ht]
    rfl

/-- Witness for C6: a time-free orbit errors with `ValueError`, an orbit
with a time array errors with `NotImplementedError` on the non-radial
request. -/
theorem estimate_period_errors_witness :
    estimatePeriod ⟨none, [[1, 2, 1]], [[0, 0, 0]]⟩ true = .error .valueError ∧
    estimatePeriod ⟨some [0, 1, 2], [[1, 2, 1]], [[0, 0, 0]]⟩ false =
      .error .notImplementedError :=
  ⟨(estimate_period_errors ⟨none, [[1, 2, 1]], [[0, 0, 0]]⟩).1 rfl true,
    (estimate_period_errors ⟨some [0, 1, 2], [[1, 2, 1]], [[0, 0, 0]]⟩).2
      [0, 1, 2] rfl⟩

/-- C8: with increasing time, the extremum helper in approximate mode
returns exactly the raw sampled values and times at the surviving candidate
indices with no refinement; the surviving candidates are the wrap-around
relative maxima with the first and last index discarded, i.e. exactly the
interior strict local maxima; and zero surviving candidates yield empty
value/time lists, not an error. -/
theorem max_helper_candidates_approx_empty (om : SplineMin) (t arr : List ℚ)
    (ha : t.headD 0 < t.getLastD 0) :
    maxHelper om t arr true =
      .ok ((interiorMaxIndices arr).map (fun i => arr.getD i 0),
        (interiorMaxIndices arr).map (fun i => t.getD i 0)) ∧
    (∀ i, i ∈ interiorMaxIndices arr ↔
      (i ∈ argrelmaxWrap arr ∧ i ≠ 0 ∧ i ≠ arr.length - 1)) ∧
    (∀ i, i ∈ interiorMaxIndices arr ↔
      (0 < i ∧ i + 1 < arr.length ∧
        arr.getD (i - 1) 0 < arr.getD i 0 ∧ arr.getD (i + 1) 0 < arr.getD i 0)) ∧
    (interiorMaxIndices arr = [] → maxHelper om t arr true = .ok ([], [])) := by
  refine ⟨maxHelper_approx_eq om t arr ha, ?_, fun i => mem_interiorMaxIndices_iff arr i, ?_⟩
  · intro i
    unfold interiorMaxIndices
    simp [List.mem_filter]
  · intro hempty
    rw [maxHelper_approx_eq om t arr ha, hempty]
    rfl

/-- Witness for C8 on a three-sample series with one interior maximum, and
the empty-candidate behaviour visible on its monotone variant. -/
theorem max_helper_candidates_approx_empty_witness :
    maxHelper trivOracle [0, 1, 2] [0, 1, 0] true = .ok ([1], [1]) ∧
    maxHelper trivOracle [0, 1, 2] [0, 1, 2] true = .ok ([], []) := by
  constructor
  · have h := (max_helper_candidates_approx_empty trivOracle [0, 1, 2] [0, 1, 0]
      (by decide)).1
    refine h.trans ?_
    rw [show interiorMaxIndices [0, 1, 0] = [1] from by decide]
    rfl
  · exact (max_helper_candidates_approx_empty trivOracle [0, 1, 2] [0, 1, 2]
      (by decide)).2.2.2 (by decide)

/-- C9: a circulation array supplied to `align_circulation_with_z` whose
shape (after promotion to a matrix) differs from
(number of axes) x (number of batch members) makes the call fail with
`ValueError`; no aligned orbit is produced. -/
theorem align_circulation_shape_check (o : COrbit) (ci : CircInput)
    (hbad : ¬ ((atleast2dInsert1 ci).length = 3 ∧
      ((atleast2dInsert1 ci).headD []).length = norbits o)) :
    alignCirculationWithZ o (some ci) = .error .valueError := by
  unfold alignCirculationWithZ
  dsimp only
  rw [if_neg hbad]

/-- Witness for C9: a 2-entry circulation vector against the 3-axis
single-member tube orbit is rejected. -/
theorem align_circulation_shape_check_witness :
    ¬ ((atleast2dInsert1 (.oneD [1, 0])).length = 3 ∧
      ((atleast2dInsert1 (.oneD [1, 0])).headD []).length = norbits tubeOrbitX) ∧
    alignCirculationWithZ tubeOrbitX (some (.oneD [1, 0])) = .error .valueError := by
  have hbad : ¬ ((atleast2dInsert1 (.oneD [1, 0])).length = 3 ∧
      ((atleast2dInsert1 (.oneD [1, 0])).headD []).length = norbits tubeOrbitX) := by
    rw [norbits_tube]
    decide
  exact ⟨hbad, align_circulation_shape_check tubeOrbitX (.oneD [1, 0]) hbad⟩

/-- C10: whenever `align_circulation_with_z` succeeds it returns a new
orbit that carries the input time array and the input Hamiltonian
(potential/frame pair) unchanged, and whose per-member position and
velocity columns are the input columns with the axis components either
untouched or permuted by a single axis transposition with z; the input
orbit itself is untouched (the embedding is a pure function of it). -/
theorem align_preserves_t_hamiltonian_permutes (o : COrbit)
    (ci : Option CircInput) (orb : COrbit)
    (h : alignCirculationWithZ o ci = .ok orb) :
    orb.t = o.t ∧ hamiltonianOf orb = hamiltonianOf o ∧
      ∀ n, n < norbits o → ∃ pm : Fin 3 → Fin 3,
        (pm = (fun b => b) ∨ ∃ c : Fin 3, pm = swapAx c) ∧
        ∀ b : Fin 3, (orb.pos b).getD n [] = (o.pos (pm b)).getD n [] ∧
          (orb.vel b).getD n [] = (o.vel (pm b)).getD n [] := by
  unfold alignCirculationWithZ at h
  dsimp only at h
  split at h
  · split at h
    · cases h
    · rename_i swaps hswaps
      cases h
      refine ⟨rfl, hamiltonianOf_mkFromHamiltonian _ _ _ _, ?_⟩
      intro n hn
      cases hsw : swaps.getD n none with
      | none =>
        refine ⟨fun b => b, Or.inl rfl, fun b => ⟨?_, ?_⟩⟩ <;>
          (dsimp only [mkFromHamiltonian]
           rw [rangeMap_getD _ _ _ _ hn, hsw])
      | some c =>
        refine ⟨swapAx c, Or.inr ⟨c, rfl⟩, fun b => ⟨?_, ?_⟩⟩ <;>
          (dsimp only [mkFromHamiltonian]
           rw [rangeMap_getD _ _ _ _ hn, hsw])
  · cases h

/-- Witness for C10: aligning the concrete x-axis tube orbit succeeds and
the result keeps its time array and Hamiltonian. -/
theorem align_preserves_t_hamiltonian_permutes_witness :
    ∃ orb, alignCirculationWithZ tubeOrbitX none = .ok orb ∧
      orb.t = tubeOrbitX.t ∧ hamiltonianOf orb = hamiltonianOf tubeOrbitX := by
  rcases align_none_ok tubeOrbitX with ⟨swaps, hok, _⟩
  have h := align_preserves_t_hamiltonian_permutes tubeOrbitX none _ hok
  exact ⟨_, hok, h.1, h.2.1⟩

/-- C7: aligning with an internally recomputed circulation always succeeds;
members already circulating about z, and box members, keep their position
and velocity columns unchanged; any other member has the circulating axis
components swapped with the z components, consistently for position and
velocity, with axis x given priority over axis y; and a single orbit
classified `[1,0,0]` realigns so that its recomputed circulation is
`[0,0,1]`. -/
theorem align_policy_and_relabel (o : COrbit) :
    ∃ orb, alignCirculationWithZ o none = .ok orb ∧
      (∀ n, n < norbits o →
        ((circEntry (Lser o 2 n) = 1 ∨
            (circEntry (Lser o 0 n) = 0 ∧ circEntry (Lser o 1 n) = 0 ∧
              circEntry (Lser o 2 n) = 0)) →
          ∀ b : Fin 3, (orb.pos b).getD n [] = (o.pos b).getD n [] ∧
            (orb.vel b).getD n [] = (o.vel b).getD n []) ∧
        (¬ (circEntry (Lser o 2 n) = 1 ∨
            (circEntry (Lser o 0 n) = 0 ∧ circEntry (Lser o 1 n) = 0 ∧
              circEntry (Lser o 2 n) = 0)) →
          ∃ c : Fin 3,
            ((circEntry (Lser o 0 n) = 1 ∧ c = 0) ∨
              (circEntry (Lser o 0 n) ≠ 1 ∧ circEntry (Lser o 1 n) = 1 ∧ c = 1)) ∧
            ∀ b : Fin 3, (orb.pos b).getD n [] = (o.pos (swapAx c b)).getD n [] ∧
              (orb.vel b).getD n [] = (o.vel (swapAx c b)).getD n [])) ∧
      (norbits o = 1 → circulationMatrix o = [[1], [0], [0]] →
        circulationMatrix orb = [[0], [0], [1]]) := by
  rcases align_none_ok o with ⟨swaps, hok, hmem⟩
  refine ⟨_, hok, ?_, ?_⟩
  · intro n hn
    have hax := hmem n hn
    constructor
    · intro hskip
      have hval : alignMemberAxis (circEntry (Lser o 0 n)) (circEntry (Lser o 1 n))
          (circEntry (Lser o 2 n)) = .ok none := by
        unfold alignMemberAxis
        rw [if_pos (by tauto)]
      rw [hval] at hax
      have hsw : swaps.getD n none = none := by
        injection hax with h
        exact h.symm
      intro b
      constructor <;>
        (dsimp only [mkFromHamiltonian]
         rw [rangeMap_getD _ _ _ _ hn, hsw])
    · intro hns
      unfold alignMemberAxis at hax
      rw [if_neg (by tauto)] at hax
      by_cases h0 : circEntry (Lser o 0 n) = 1
      · rw [if_pos h0] at hax
        have hsw : swaps.getD n none = some 0 := by
          injection hax with h
          exact h.symm
        refine ⟨0, Or.inl ⟨h0, rfl⟩, fun b => ⟨?_, ?_⟩⟩ <;>
          (dsimp only [mkFromHamiltonian]
           rw [rangeMap_getD _ _ _ _ hn, hsw])
      · rw [if_neg h0] at hax
        by_cases h1 : circEntry (Lser o 1 n) = 1
        · rw [if_pos h1] at hax
          have hsw : swaps.getD n none = some 1 := by
            injection hax with h
            exact h.symm
          refine ⟨1, Or.inr ⟨h0, h1, rfl⟩, fun b => ⟨?_, ?_⟩⟩ <;>
            (dsimp only [mkFromHamiltonian]
             rw [rangeMap_getD _ _ _ _ hn, hsw])
        · rw [if_neg h1] at hax
          cases hax
  · intro hN hmat
    have hn0 : 0 < norbits o := by rw [hN]; norm_num
    have h0 : circEntry (Lser o 0 0) = 1 := by
      have h := congrArg (fun m => (m.getD 0 []).getD 0 0) hmat
      dsimp only at h
      rw [circulationMatrix_row0, hN, range_one_eq] at h
      simpa only [List.map_cons, List.map_nil, List.getD_cons_zero] using h
    have h1 : circEntry (Lser o 1 0) = 0 := by
      have h := congrArg (fun m => (m.getD 1 []).getD 0 0) hmat
      dsimp only at h
      rw [circulationMatrix_row1, hN, range_one_eq] at h
      simpa only [List.map_cons, List.map_nil, List.getD_cons_zero,
        List.getD_cons_succ] using h
    have h2 : circEntry (Lser o 2 0) = 0 := by
      have h := congrArg (fun m => (m.getD 2 []).getD 0 0) hmat
      dsimp only at h
      rw [circulationMatrix_row2, hN, range_one_eq] at h
      simpa only [List.map_cons, List.map_nil, List.getD_cons_zero,
        List.getD_cons_succ] using h
    have hax := hmem 0 hn0
    rw [h0, h1, h2] at hax
    have hcomp : alignMemberAxis 1 0 0 = .ok (some 0) := rfl
    rw [hcomp] at hax
    have hsw : swaps.getD 0 none = some 0 := by
      injection hax with h
      exact h.symm
    have hposcol : ∀ b : Fin 3,
        ((mkFromHamiltonian
          (fun a => (List.range (norbits o)).map (fun n =>
            match swaps.getD n none with
            | none => (o.pos a).getD n []
            | some c => (o.pos (swapAx c a)).getD n []))
          (fun a => (List.range (norbits o)).map (fun n =>
            match swaps.getD n none with
            | none => (o.vel a).getD n []
            | some c => (o.vel (swapAx c a)).getD n []))
          o.t (hamiltonianOf o)).pos b).getD 0 [] =
          (o.pos (swapAx 0 b)).getD 0 [] := by
      intro b
      dsimp only [mkFromHamiltonian]
      rw [rangeMap_getD _ _ _ _ hn0, hsw]
    have hvelcol : ∀ b : Fin 3,
        ((mkFromHamiltonian
          (fun a => (List.range (norbits o)).map (fun n =>
            match swaps.getD n none with
            | none => (o.pos a).getD n []
            | some c => (o.pos (swapAx c a)).getD n []))
          (fun a => (List.range (norbits o)).map (fun n =>
            match swaps.getD n none with
            | none => (o.vel a).getD n []
            | some c => (o.vel (swapAx c a)).getD n []))
          o.t (hamiltonianOf o)).vel b).getD 0 [] =
          (o.vel (swapAx 0 b)).getD 0 [] := by
      intro b
      dsimp only [mkFromHamiltonian]
      rw [rangeMap_getD _ _ _ _ hn0, hsw]
    have hL := Lser_swap o _ 0 (Or.inl rfl) 0 hposcol hvelcol
    have hNorb : norbits (mkFromHamiltonian
        (fun a => (List.range (norbits o)).map (fun n =>
          match swaps.getD n none with
          | none => (o.pos a).getD n []
          | some c => (o.pos (swapAx c a)).getD n []))
        (fun a => (List.range (norbits o)).map (fun n =>
          match swaps.getD n none with
          | none => (o.vel a).getD n []
          | some c => (o.vel (swapAx c a)).getD n []))
        o.t (hamiltonianOf o)) = 1 := by
      have hN' := hN
      unfold norbits at hN'
      simp only [norbits, mkFromHamiltonian, List.length_map, List.length_range]
      exact hN'
    unfold circulationMatrix
    rw [hNorb, range_one_eq]
    simp only [List.map_cons, List.map_nil]
    rw [hL 0, hL 1, hL 2, circEntry_map_neg, circEntry_map_neg, circEntry_map_neg]
    rw [show swapAx 0 0 = 2 from rfl, show swapAx 0 1 = 1 from rfl,
      show swapAx 0 2 = 0 from rfl, h0, h1, h2]

/-- Witness for C7: the concrete x-axis tube orbit, classified `[1,0,0]`,
aligns successfully and its realigned circulation recomputes to
`[0,0,1]`. -/
theorem align_policy_and_relabel_witness :
    ∃ orb, alignCirculationWithZ tubeOrbitX none = .ok orb ∧
      circulationMatrix orb = [[0], [0], [1]] := by
  rcases align_policy_and_relabel tubeOrbitX with ⟨orb, hok, _, hrelabel⟩
  exact ⟨orb, hok, hrelabel norbits_tube circulationMatrix_tube⟩
